import Mathlib

/-!
Shallow embedding of `src/main.rs` of letterboxd-list-sync: the identity
resolver (`resolve_film_ids`), the paginated membership fetcher
(`fetch_saved_films`), the reconciliation set difference in `sync_list`,
the cache persistence pair (`load_ids_list_from_cache` /
`save_ids_list_to_cache`) and the update-request builder
(`create_update_request`).

Rust `HashMap<String, String>` is modelled as an association list with
HashMap insert/get semantics (insert replaces the value of an existing
key, otherwise adds the entry; get returns the entry's value).
Rust `HashSet<String>` is modelled as `Finset String`. Futures that may
fail with `letterboxd::Error` are modelled as `Except LbError`.
-/

namespace LetterboxdSync

/-- Opaque stand-in for `letterboxd::Error` (transport/auth failures of the
remote service). -/
structure LbError where
  msg : String
deriving DecidableEq, Repr

/-! ## HashMap model -/

/-- Rust `HashMap::get`: the value stored for `key`, if any. -/
def hmGet (m : List (String × String)) (key : String) : Option String :=
  (m.find? (fun p => p.1 == key)).map (fun p => p.2)

/-- Rust `HashMap::insert`: replace the value of an existing key, otherwise add
the entry. -/
def hmInsert (m : List (String × String)) (kv : String × String) : List (String × String) :=
  match m with
  | [] => [kv]
  | p :: rest => if p.1 = kv.1 then (kv.1, kv.2) :: rest else p :: hmInsert rest kv

/-- Rust `collect::<HashMap<_, _>>()` over a sequence of pairs: fold the inserts
(a later pair with the same key overwrites an earlier one). -/
def hmOfList (l : List (String × String)) : List (String × String) :=
  l.foldl hmInsert []

/-! ## Search types and the resolver (`resolve_film_ids`) -/

/-- Rust `letterboxd::AbstractSearchItem`: a search result is either a film item
carrying the film's id, or some other kind of item. -/
inductive AbstractSearchItem where
  | filmSearchItem (film_id : String)
  | otherItem
deriving DecidableEq, Repr

/-- Rust `letterboxd::SearchResponse`. -/
structure SearchResponse where
  items : List AbstractSearchItem
deriving DecidableEq, Repr

/-- Rust `letterboxd::SearchRequest` as built by `search_movie`. -/
structure SearchRequest where
  cursor : Option Nat
  per_page : Option Nat
  input : String
deriving DecidableEq, Repr

/-- The remote search endpoint `client.search`, as an abstract service. -/
def SearchClient : Type := SearchRequest → Except LbError SearchResponse

/-- Rust `search_movie`: single-result autocomplete search request for a movie
name. -/
def search_movie (client : SearchClient) (movie : String) : Except LbError SearchResponse :=
  client { cursor := none, per_page := some 1, input := movie }

/-- Rust `FilmDetails`: a candidate name together with its resolved id, if any. -/
structure FilmDetails where
  name : String
  id : Option String
deriving DecidableEq, Repr

/-- Rust `FilmDetails::new`. -/
def FilmDetails.new (name : String) (id : Option String) : FilmDetails :=
  { name := name, id := id }

/-- The per-movie closure of `resolve_film_ids`: on a cache hit return the
cached id without any remote call; on a miss call `search_movie` and
extract the first item's film id (an empty response or a non-film first
item yields no id, with a warning printed). -/
def resolve_one (film_ids_cache : List (String × String)) (client : SearchClient)
    (movie : String) : Except LbError FilmDetails :=
  match hmGet film_ids_cache movie with
  | some id => .ok (FilmDetails.new movie (some id))
  | none =>
    match search_movie client movie with
    | .error e => .error e
    | .ok resp =>
      match resp.items with
      | [] => .ok (FilmDetails.new movie none)
      | AbstractSearchItem.filmSearchItem film_id :: _ => .ok (FilmDetails.new movie (some film_id))
      | AbstractSearchItem.otherItem :: _ => .ok (FilmDetails.new movie none)

/-- Rust `futures::future::join_all` on already-settled outcomes: succeeds with
the list of results when every future succeeds; if any future fails, the
whole aggregate fails (`join_all` drops the other futures and returns an
error — we report the first error in list order, the temporal order of the
actual race being irrelevant to failure itself). -/
def join_all {α : Type} : List (Except LbError α) → Except LbError (List α)
  | [] => .ok []
  | f :: rest =>
    match f with
    | .error e => .error e
    | .ok a => (join_all rest).map (fun l => a :: l)

/-- Rust `FromIterator<FilmDetails> for HashMap<String, String>`: keep only the
details that carry an id, as (name, id) pairs. -/
def from_iter_film_details (l : List FilmDetails) : List (String × String) :=
  l.filterMap (fun fd => fd.id.map (fun id => (fd.name, id)))

/-- Rust `resolve_film_ids`: map every candidate name to its lookup future,
join them all, and collect the successful details into a map. -/
def resolve_film_ids (movie_names : List String) (film_ids_cache : List (String × String))
    (client : SearchClient) : Except LbError (List (String × String)) :=
  (join_all (movie_names.map (resolve_one film_ids_cache client))).map
    (fun l => hmOfList (from_iter_film_details l))

/-! ## Scheduling structure of the resolver's fan-out -/

/-- The shape of the future built for one candidate: `future::ok` of cached
details on a hit, a boxed remote search call on a miss. -/
inductive LookupTask where
  | cached (details : FilmDetails)
  | remote (movie : String)
deriving DecidableEq, Repr

/-- The list of futures `film_ids_req` that `resolve_film_ids` hands to
`join_all`, keeping only each future's shape. -/
def schedule_lookups (movie_names : List String) (film_ids_cache : List (String × String)) :
    List LookupTask :=
  movie_names.map (fun movie =>
    match hmGet film_ids_cache movie with
    | some id => LookupTask.cached (FilmDetails.new movie (some id))
    | none => LookupTask.remote movie)

/-- The candidate names for which `resolve_film_ids` invokes the remote
search service (the `remote` tasks of the schedule). -/
def invoked_lookups (movie_names : List String) (film_ids_cache : List (String × String)) :
    List String :=
  (schedule_lookups movie_names film_ids_cache).filterMap
    (fun t => match t with
      | LookupTask.remote movie => some movie
      | LookupTask.cached _ => none)

/-- Rust `join_all` polls every future of its batch from the start and defers
none of them, so every `remote` task's search call is in flight
simultaneously: the peak number of concurrent remote calls is the number
of `remote` tasks in the batch. -/
def concurrent_in_flight (tasks : List LookupTask) : Nat :=
  (tasks.filter (fun t => match t with
    | LookupTask.remote _ => true
    | LookupTask.cached _ => false)).length

/-! ## Paginated membership fetcher (`fetch_saved_films`) -/

/-- Rust `letterboxd::ListEntry`, kept to the field the code reads:
`entry.film.id`. -/
structure ListEntry where
  film_id : String
deriving DecidableEq, Repr

/-- Rust `letterboxd::ListEntriesRequest` as the code uses it (only `cursor`
and `per_page` are ever set; `default()` leaves both unset). Cursors are
opaque; we model them as naturals. -/
structure ListEntriesRequest where
  cursor : Option Nat := none
  per_page : Option Nat := none
deriving DecidableEq, Repr

/-- Rust `letterboxd::ListEntriesResponse`: a page of entries plus the optional
next-page cursor. -/
structure ListEntriesResponse where
  items : List ListEntry
  next : Option Nat
deriving DecidableEq, Repr

/-- The remote list-entries endpoint `client.list_entries`, as an abstract
service from request to response (or transport error). -/
def ListClient : Type := ListEntriesRequest → Except LbError ListEntriesResponse

/-- Rust `film_id_set_from_response`: the set of film ids of a page's entries. -/
def film_id_set_from_response (entries : List ListEntry) : Finset String :=
  (entries.map (fun entry => entry.film_id)).toFinset

/-- The state structure `FetchState` of the query loop. -/
structure FetchState where
  request : ListEntriesRequest
  entries : Finset String
deriving DecidableEq

/-- Rust `futures::future::Loop`: break with a result or continue with new
state. -/
inductive FetchLoop where
  | brk (entries : Finset String)
  | cont (state : FetchState)
deriving DecidableEq

/-- Rust `continue_or_break`: stop when the response carries no cursor;
otherwise continue with a fresh request holding the new cursor and a
page-size hint of 100. -/
def continue_or_break (next : Option Nat) (state : FetchState) : FetchLoop :=
  match next with
  | none => FetchLoop.brk state.entries
  | some cursor =>
    FetchLoop.cont { state with
      request := { cursor := some cursor, per_page := some 100 } }

/-- One turn of `future::loop_fn`'s body: issue the current request,
extend the accumulated id set with the page, and decide whether to break
or continue. -/
def fetch_step (client : ListClient) (state : FetchState) : Except LbError FetchLoop :=
  (client state.request).map (fun response =>
    continue_or_break response.next
      { state with entries := state.entries ∪ film_id_set_from_response response.items })

/-- Rust `future::loop_fn` run for at most `fuel` turns, also counting the page
requests issued. `none` means the loop was still continuing after `fuel`
pages (the Rust loop itself has no cap and would keep going). -/
def fetch_loop (client : ListClient) : Nat → FetchState → Nat →
    Option (Except LbError (Finset String) × Nat)
  | 0, _, _ => none
  | fuel + 1, state, count =>
    match fetch_step client state with
    | .error e => some (.error e, count + 1)
    | .ok (FetchLoop.brk entries) => some (.ok entries, count + 1)
    | .ok (FetchLoop.cont state') => fetch_loop client fuel state' (count + 1)

/-- Rust `fetch_saved_films`: run the query loop from the initial state (default
request, empty id set). Returns the final id set (or transport error)
paired with the number of page requests issued, or `none` when the loop
has not terminated within `fuel` pages. -/
def fetch_saved_films (client : ListClient) (fuel : Nat) :
    Option (Except LbError (Finset String) × Nat) :=
  fetch_loop client fuel { request := {}, entries := ∅ } 0

/-! ## Reconciliation (`sync_list`, lines 345–355) -/

/-- The local id set: `film_ids.values().cloned().collect::<HashSet<_>>()`. -/
def local_ids (film_ids : List (String × String)) : Finset String :=
  (film_ids.map (fun p => p.2)).toFinset

/-- The body of the `to_remove_and_add` closure of `sync_list`: from the
remote set `saved` and the resolved map `film_ids`, compute
`to_add = ids − saved` and `to_remove = saved − ids` (returned in the
code's `(to_remove, to_add)` order). Pure set differences: no effects,
no failure case. -/
def to_remove_and_add (saved : Finset String) (film_ids : List (String × String)) :
    Finset String × Finset String :=
  let ids := local_ids film_ids
  (saved \ ids, ids \ saved)

/-! ## Cache persistence (`load_ids_list_from_cache`, `save_ids_list_to_cache`)

The cache file is modelled by its text content, `Option String` standing
for "file present with this content / absent". The entries of the map are
serialized in iteration order; keys and values in this development contain
no characters needing JSON escapes, so serialization is plain quoting. -/

/-- The double-quote character. -/
def quoteChar : Char := Char.ofNat 34

/-- The opening-brace character of a JSON object. -/
def lbraceChar : Char := Char.ofNat 123

/-- The closing-brace character of a JSON object. -/
def rbraceChar : Char := Char.ofNat 125

/-- The comma character. -/
def commaChar : Char := Char.ofNat 44

/-- The colon character. -/
def colonChar : Char := Char.ofNat 58

/-- Quote a string for JSON (no escaping needed for the plain ASCII
names/ids used here). -/
def jsonQuote (s : String) : String :=
  String.mk (quoteChar :: s.toList ++ [quoteChar])

/-- Rust `serde_json::to_writer` of a string→string map: a flat JSON object. -/
def serialize_ids (ids : List (String × String)) : String :=
  String.mk [lbraceChar] ++
    String.intercalate (String.mk [commaChar])
      (ids.map (fun p => jsonQuote p.1 ++ String.mk [colonChar] ++ jsonQuote p.2)) ++
    String.mk [rbraceChar]

/-- Rust `save_ids_list_to_cache`: the file is opened with `write(true)` and
`create(true)` but WITHOUT `truncate`, so the serialized bytes are written
from offset 0 and any remaining bytes of the previous content stay in the
file. `old` is the previous file content (`""` when the file is new). -/
def save_ids_list_to_cache (ids : List (String × String)) (old : String) : String :=
  let written := serialize_ids ids
  written ++ String.mk (old.toList.drop written.toList.length)

/-- Parse a JSON string literal (no escapes): `"..."` and the remaining
characters. -/
def parse_string_lit : List Char → Option (String × List Char)
  | [] => none
  | c :: rest =>
    if c = quoteChar then
      let body := rest.takeWhile (fun d => d ≠ quoteChar)
      match rest.dropWhile (fun d => d ≠ quoteChar) with
      | d :: rest' => if d = quoteChar then some (String.mk body, rest') else none
      | [] => none
    else none

/-- Parse one `"key":"value"` pair. -/
def parse_pair (cs : List Char) : Option ((String × String) × List Char) :=
  match parse_string_lit cs with
  | none => none
  | some (k, rest) =>
    match rest with
    | [] => none
    | c :: rest' =>
      if c = colonChar then
        match parse_string_lit rest' with
        | some (v, rest'') => some ((k, v), rest'')
        | none => none
      else none

/-- Parse a comma-separated sequence of pairs (fuelled by the input
length). -/
def parse_entries : Nat → List Char → List (String × String) →
    Option (List (String × String) × List Char)
  | 0, _, _ => none
  | fuel + 1, cs, acc =>
    match parse_pair cs with
    | none => none
    | some (kv, rest) =>
      match rest with
      | [] => some (acc ++ [kv], [])
      | c :: rest' =>
        if c = commaChar then parse_entries fuel rest' (acc ++ [kv])
        else some (acc ++ [kv], c :: rest')

/-- Rust `serde_json::from_reader` for a flat string→string JSON object: parse
one object and then REQUIRE the stream to be exhausted — trailing
characters after the value are an error. -/
def parse_json_map (s : String) : Option (List (String × String)) :=
  match s.toList with
  | [] => none
  | c :: rest =>
    if c = lbraceChar then
      match rest with
      | [] => none
      | d :: tail =>
        if d = rbraceChar then (if tail.isEmpty then some [] else none)
        else
          match parse_entries (s.toList.length) rest [] with
          | none => none
          | some (entries, rest') =>
            match rest' with
            | [] => none
            | e :: tail' =>
              if e = rbraceChar then (if tail'.isEmpty then some entries else none)
              else none
    else none

/-- Rust `load_ids_list_from_cache`: a missing file yields the empty map (not
an error); a present file must parse as a JSON map, otherwise the load
fails. -/
def load_ids_list_from_cache (file : Option String) : Except String (List (String × String)) :=
  match file with
  | none => .ok []
  | some content =>
    match parse_json_map content with
    | some ids => .ok ids
    | none => .error ("malformed cache")

/-! ## Update request (`create_update_request`, `sync_list` lines 357–381) -/

/-- Rust `letterboxd::ListUpdateEntry`, kept to the film id the code sets. -/
structure ListUpdateEntry where
  film : String
deriving DecidableEq, Repr

/-- Rust `ListUpdateEntry::new`. -/
def ListUpdateEntry.new (film : String) : ListUpdateEntry :=
  { film := film }

/-- Rust `letterboxd::ListUpdateRequest`, kept to the fields the code sets. -/
structure ListUpdateRequest where
  list_name : String
  entries : List ListUpdateEntry
  films_to_remove : List String
deriving DecidableEq, Repr

/-- Rust `ListUpdateRequest::new`. -/
def ListUpdateRequest.new (list_name : String) : ListUpdateRequest :=
  { list_name := list_name, entries := [], films_to_remove := [] }

/-- Rust `create_update_request`: a fresh request for `list_name` with the films
to add as entries and the films to remove. -/
def create_update_request (list_name : String) (films_to_remove : List String)
    (films_to_add : List String) : ListUpdateRequest :=
  let request := ListUpdateRequest.new list_name
  { request with
    entries := films_to_add.map ListUpdateEntry.new
    films_to_remove := films_to_remove }

/-- The update stage of `sync_list`: with `let list_name = "Collection"`,
build an update request when there is anything to add or remove, else
`None` (nothing to do; `patch_list` is then not called). `list_id` is only
the target of the later `patch_list` call and does not enter the request. -/
def sync_update_request (list_id : String) (to_remove : List String) (to_add : List String) :
    Option ListUpdateRequest :=
  let _ := list_id
  let list_name := "Collection"
  if ¬ to_remove.isEmpty ∨ ¬ to_add.isEmpty then
    some (create_update_request list_name to_remove to_add)
  else
    none

/-! ## Basic facts about the HashMap model -/

lemma hmGet_nil (k : String) : hmGet [] k = none := rfl

lemma hmGet_cons (p : String × String) (rest : List (String × String)) (k : String) :
    hmGet (p :: rest) k = if p.1 = k then some p.2 else hmGet rest k := by
  unfold hmGet
  by_cases h : p.1 = k
  · rw [List.find?_cons_of_pos _ (by simpa using h)]
    simp [h]
  · rw [List.find?_cons_of_neg _ (by simpa using h)]
    simp [h]

lemma hmGet_hmInsert_self (m : List (String × String)) (k v : String) :
    hmGet (hmInsert m (k, v)) k = some v := by
  induction m with
  | nil => simp [hmInsert, hmGet_cons]
  | cons p rest ih =>
    by_cases hp : p.1 = k
    · simp [hmInsert, hp, hmGet_cons]
    · simp [hmInsert, hp, hmGet_cons, ih]

lemma hmGet_hmInsert_ne (m : List (String × String)) (kv : String × String) (k : String)
    (h : k ≠ kv.1) : hmGet (hmInsert m kv) k = hmGet m k := by
  have h' : kv.1 ≠ k := Ne.symm h
  induction m with
  | nil => simp [hmInsert, hmGet_cons, h', hmGet_nil]
  | cons p rest ih =>
    by_cases hp : p.1 = kv.1
    · have hpk : p.1 ≠ k := by rw [hp]; exact h'
      simp [hmInsert, hp, hmGet_cons, hpk, h']
    · simp [hmInsert, hp, hmGet_cons, ih]

lemma hmGet_foldl_const (k v : String) :
    ∀ (pairs : List (String × String)) (m : List (String × String)),
      (∀ p ∈ pairs, p.1 = k → p.2 = v) →
      (hmGet m k = some v ∨ ∃ p ∈ pairs, p.1 = k) →
      hmGet (pairs.foldl hmInsert m) k = some v := by
  intro pairs
  induction pairs with
  | nil =>
    intro m _ hbase
    rcases hbase with h | ⟨p, hp, _⟩
    · simpa using h
    · simp at hp
  | cons q rest ih =>
    intro m hval hbase
    simp only [List.foldl_cons]
    by_cases hq : q.1 = k
    · refine ih (hmInsert m q) (fun p hp h => hval p (List.mem_cons_of_mem q hp) h) ?_
      left
      have hv : q.2 = v := hval q (List.mem_cons_self q rest) hq
      have hqkv : q = (k, v) := by cases q; simp_all
      rw [hqkv]
      exact hmGet_hmInsert_self m k v
    · refine ih (hmInsert m q) (fun p hp h => hval p (List.mem_cons_of_mem q hp) h) ?_
      rcases hbase with h | ⟨p, hp, hpk⟩
      · left
        rw [hmGet_hmInsert_ne m q k (Ne.symm hq)]
        exact h
      · rcases List.mem_cons.mp hp with h' | h'
        · exact absurd (h' ▸ hpk) hq
        · exact Or.inr ⟨p, h', hpk⟩

lemma hmGet_hmOfList_const (pairs : List (String × String)) (k v : String)
    (hex : ∃ p ∈ pairs, p.1 = k) (hval : ∀ p ∈ pairs, p.1 = k → p.2 = v) :
    hmGet (hmOfList pairs) k = some v :=
  hmGet_foldl_const k v pairs [] hval (Or.inr hex)

lemma hmGet_foldl_none (k : String) :
    ∀ (pairs : List (String × String)) (m : List (String × String)),
      hmGet m k = none → (∀ p ∈ pairs, p.1 ≠ k) →
      hmGet (pairs.foldl hmInsert m) k = none := by
  intro pairs
  induction pairs with
  | nil => intro m hm _; simpa using hm
  | cons q rest ih =>
    intro m hm hkeys
    simp only [List.foldl_cons]
    refine ih (hmInsert m q) ?_ (fun p hp => hkeys p (List.mem_cons_of_mem q hp))
    rw [hmGet_hmInsert_ne m q k (fun h' => hkeys q (List.mem_cons_self q rest) h'.symm)]
    exact hm

lemma hmGet_hmOfList_none (pairs : List (String × String)) (k : String)
    (hkeys : ∀ p ∈ pairs, p.1 ≠ k) : hmGet (hmOfList pairs) k = none :=
  hmGet_foldl_none k pairs [] rfl hkeys

lemma hmInsert_eq_append (p : (String × String)) :
    ∀ (m : List (String × String)), (∀ q ∈ m, q.1 ≠ p.1) → hmInsert m p = m ++ [p] := by
  intro m
  induction m with
  | nil => intro; rfl
  | cons q rest ih =>
    intro h
    have hq : q.1 ≠ p.1 := h q (List.mem_cons_self q rest)
    simp only [hmInsert, hq, if_false, List.cons_append, List.cons.injEq, true_and]
    exact ih (fun r hr => h r (List.mem_cons_of_mem q hr))

lemma foldl_hmInsert_eq_append :
    ∀ (pairs m : List (String × String)),
      (∀ p ∈ pairs, ∀ q ∈ m, q.1 ≠ p.1) → (pairs.map Prod.fst).Nodup →
      pairs.foldl hmInsert m = m ++ pairs := by
  intro pairs
  induction pairs with
  | nil => intro m _ _; simp
  | cons p rest ih =>
    intro m hsep hnd
    simp only [List.foldl_cons]
    rw [hmInsert_eq_append p m (hsep p (List.mem_cons_self p rest))]
    rw [List.map_cons, List.nodup_cons] at hnd
    have hsep' : ∀ p' ∈ rest, ∀ q ∈ m ++ [p], q.1 ≠ p'.1 := by
      intro p' hp' q hq
      rcases List.mem_append.mp hq with hq' | hq'
      · exact hsep p' (List.mem_cons_of_mem p hp') q hq'
      · have hq'' : q = p := by simpa using hq'
        subst hq''
        intro hcontra
        exact hnd.1 (hcontra ▸ List.mem_map_of_mem Prod.fst hp')
    rw [ih (m ++ [p]) hsep' hnd.2]
    simp

lemma hmOfList_of_nodup_keys (pairs : List (String × String))
    (hnd : (pairs.map Prod.fst).Nodup) : hmOfList pairs = pairs := by
  have := foldl_hmInsert_eq_append pairs [] (by simp) hnd
  simpa [hmOfList] using this

/-! ## Facts about `join_all` and `resolve_one` -/

lemma join_all_eq_ok_iff {α : Type} :
    ∀ (names : List String) (f : String → Except LbError α) (out : List α),
      join_all (names.map f) = .ok out ↔
        List.Forall₂ (fun n a => f n = .ok a) names out := by
  intro names
  induction names with
  | nil =>
    intro f out
    constructor
    · intro h
      cases out with
      | nil => exact List.Forall₂.nil
      | cons b bs => simp [join_all] at h
    · intro h
      cases h
      rfl
  | cons n rest ih =>
    intro f out
    constructor
    · intro h
      simp only [List.map_cons, join_all] at h
      cases hf : f n with
      | error e => rw [hf] at h; simp at h
      | ok a =>
        rw [hf] at h
        cases hrest : join_all (rest.map f) with
        | error e => rw [hrest] at h; simp [Except.map] at h
        | ok l =>
          rw [hrest] at h
          simp only [Except.map, Except.ok.injEq] at h
          subst h
          exact List.Forall₂.cons hf ((ih f l).mp hrest)
    · intro h
      cases h with
      | cons hfa hrest =>
        simp only [List.map_cons, join_all, hfa]
        rw [(ih f _).mpr hrest]
        rfl

lemma join_all_error_of_mem {α : Type} (e : LbError) :
    ∀ (l : List (Except LbError α)), Except.error e ∈ l →
      ∃ e', join_all l = .error e' := by
  intro l
  induction l with
  | nil => intro h; simp at h
  | cons x rest ih =>
    intro h
    rcases List.mem_cons.mp h with h' | h'
    · exact ⟨e, by simp [join_all, ← h']⟩
    · cases x with
      | error e₀ => exact ⟨e₀, rfl⟩
      | ok a =>
        obtain ⟨e', he'⟩ := ih h'
        exact ⟨e', by simp [join_all, he', Except.map]⟩

lemma forall₂_exists_of_mem_left {α β : Type} {r : α → β → Prop} :
    ∀ {l₁ : List α} {l₂ : List β}, List.Forall₂ r l₁ l₂ → ∀ {x : α}, x ∈ l₁ →
      ∃ y ∈ l₂, r x y := by
  intro l₁ l₂ h
  induction h with
  | nil => intro x hx; simp at hx
  | cons hr _ ih =>
    intro x hx
    rcases List.mem_cons.mp hx with h' | h'
    · exact ⟨_, List.mem_cons_self _ _, h' ▸ hr⟩
    · obtain ⟨y, hy, hry⟩ := ih h'
      exact ⟨y, List.mem_cons_of_mem _ hy, hry⟩

lemma forall₂_exists_of_mem_right {α β : Type} {r : α → β → Prop} :
    ∀ {l₁ : List α} {l₂ : List β}, List.Forall₂ r l₁ l₂ → ∀ {y : β}, y ∈ l₂ →
      ∃ x ∈ l₁, r x y := by
  intro l₁ l₂ h
  induction h with
  | nil => intro y hy; simp at hy
  | cons hr _ ih =>
    intro y hy
    rcases List.mem_cons.mp hy with h' | h'
    · exact ⟨_, List.mem_cons_self _ _, h' ▸ hr⟩
    · obtain ⟨x, hx, hrx⟩ := ih h'
      exact ⟨x, List.mem_cons_of_mem _ hx, hrx⟩

lemma except_map_eq_ok {ε α β : Type} (f : α → β) (x : Except ε α) (y : β)
    (h : Except.map f x = .ok y) : ∃ a, x = .ok a ∧ y = f a := by
  cases x with
  | error e => simp [Except.map] at h
  | ok a => exact ⟨a, rfl, by simpa [Except.map] using h.symm⟩

lemma resolve_one_ok_name (cache : List (String × String)) (client : SearchClient)
    (movie : String) (fd : FilmDetails)
    (h : resolve_one cache client movie = .ok fd) : fd.name = movie := by
  unfold resolve_one at h
  cases hc : hmGet cache movie with
  | some id => rw [hc] at h; cases h; rfl
  | none =>
    rw [hc] at h
    cases hs : search_movie client movie with
    | error e => rw [hs] at h; cases h
    | ok resp =>
      rw [hs] at h
      cases resp with
      | mk items =>
        cases items with
        | nil => cases h; rfl
        | cons item rest =>
          cases item with
          | filmSearchItem film_id => cases h; rfl
          | otherItem => cases h; rfl

lemma resolve_one_cache_hit (cache : List (String × String)) (client : SearchClient)
    (movie id : String) (h : hmGet cache movie = some id) :
    resolve_one cache client movie = .ok (FilmDetails.new movie (some id)) := by
  unfold resolve_one
  rw [h]

/-- The id `resolve_one` produces for a movie when its future succeeds. -/
def resolved_id (cache : List (String × String)) (client : SearchClient)
    (movie : String) : Option String :=
  match resolve_one cache client movie with
  | .ok fd => fd.id
  | .error _ => none

lemma resolve_one_eq_of_ok (cache : List (String × String)) (client : SearchClient)
    (movie : String) (fd : FilmDetails)
    (h : resolve_one cache client movie = .ok fd) :
    resolve_one cache client movie = .ok (FilmDetails.new movie (resolved_id cache client movie)) := by
  have hname := resolve_one_ok_name cache client movie fd h
  rw [h]
  unfold resolved_id
  rw [h]
  cases fd with
  | mk name id => simp [FilmDetails.new] at hname ⊢; exact hname

/-- When every candidate's future succeeds, `resolve_film_ids` returns the
collected map of the candidates that resolved to an id. -/
lemma resolve_film_ids_of_all_ok (movie_names : List String)
    (cache : List (String × String)) (client : SearchClient)
    (h : ∀ n ∈ movie_names, ∃ fd, resolve_one cache client n = .ok fd) :
    resolve_film_ids movie_names cache client =
      .ok (hmOfList (movie_names.filterMap
        (fun n => (resolved_id cache client n).map (fun id => (n, id))))) := by
  have hjoin : join_all (movie_names.map (resolve_one cache client)) =
      .ok (movie_names.map (fun n => FilmDetails.new n (resolved_id cache client n))) := by
    rw [join_all_eq_ok_iff]
    induction movie_names with
    | nil => exact List.Forall₂.nil
    | cons n rest ih =>
      obtain ⟨fd, hfd⟩ := h n (List.mem_cons_self n rest)
      exact List.Forall₂.cons (resolve_one_eq_of_ok cache client n fd hfd)
        (ih (fun n' hn' => h n' (List.mem_cons_of_mem n hn')))
  unfold resolve_film_ids
  rw [hjoin]
  simp only [Except.map, Except.ok.injEq]
  congr 1
  unfold from_iter_film_details
  rw [List.filterMap_map]
  rfl

lemma resolve_film_ids_ok_inv (movie_names : List String)
    (cache : List (String × String)) (client : SearchClient)
    (m : List (String × String))
    (h : resolve_film_ids movie_names cache client = .ok m) :
    ∃ out, join_all (movie_names.map (resolve_one cache client)) = .ok out ∧
      m = hmOfList (from_iter_film_details out) := by
  unfold resolve_film_ids at h
  obtain ⟨out, hout, hm⟩ := except_map_eq_ok _ _ _ h
  exact ⟨out, hout, hm⟩

lemma mem_from_iter (out : List FilmDetails) (p : String × String) :
    p ∈ from_iter_film_details out ↔ ∃ fd ∈ out, fd.name = p.1 ∧ fd.id = some p.2 := by
  unfold from_iter_film_details
  rw [List.mem_filterMap]
  constructor
  · rintro ⟨fd, hfd, hmap⟩
    rcases Option.map_eq_some'.mp hmap with ⟨id, hid, hp⟩
    exact ⟨fd, hfd, by rw [← hp], by rw [hid, ← hp]⟩
  · rintro ⟨fd, hfd, hname, hid⟩
    refine ⟨fd, hfd, ?_⟩
    rw [hid]
    simp [Option.map, hname]

lemma resolve_ok_preserves_hit (movie_names : List String)
    (cache m : List (String × String)) (client : SearchClient) (movie id : String)
    (hres : resolve_film_ids movie_names cache client = .ok m)
    (hmem : movie ∈ movie_names) (hhit : hmGet cache movie = some id) :
    hmGet m movie = some id := by
  obtain ⟨out, hout, hm⟩ := resolve_film_ids_ok_inv movie_names cache client m hres
  have hfa := (join_all_eq_ok_iff movie_names (resolve_one cache client) out).mp hout
  subst hm
  have hone : resolve_one cache client movie = .ok (FilmDetails.new movie (some id)) :=
    resolve_one_cache_hit cache client movie id hhit
  obtain ⟨fd, hfd_mem, hfd⟩ := forall₂_exists_of_mem_left hfa hmem
  have hfd_eq : fd = FilmDetails.new movie (some id) := by
    rw [hone] at hfd
    exact (Except.ok.injEq _ _).mp hfd.symm
  apply hmGet_hmOfList_const
  · refine ⟨(movie, id), ?_, rfl⟩
    rw [mem_from_iter]
    exact ⟨fd, hfd_mem, by rw [hfd_eq]; rfl, by rw [hfd_eq]; rfl⟩
  · intro p hp hpk
    rcases (mem_from_iter out p).mp hp with ⟨fd', hfd'_mem, hname', hid'⟩
    obtain ⟨n, hn_mem, hn⟩ := forall₂_exists_of_mem_right hfa hfd'_mem
    have : fd'.name = n := resolve_one_ok_name cache client n fd' hn
    have hn_movie : n = movie := by rw [← this, hname', hpk]
    rw [hn_movie, hone] at hn
    have : fd' = FilmDetails.new movie (some id) := (Except.ok.injEq _ _).mp hn.symm
    rw [this] at hid'
    simpa [FilmDetails.new] using hid'.symm

lemma resolve_ok_keys_mem (movie_names : List String)
    (cache m : List (String × String)) (client : SearchClient) (k : String)
    (hres : resolve_film_ids movie_names cache client = .ok m)
    (hk : k ∉ movie_names) : hmGet m k = none := by
  obtain ⟨out, hout, hm⟩ := resolve_film_ids_ok_inv movie_names cache client m hres
  have hfa := (join_all_eq_ok_iff movie_names (resolve_one cache client) out).mp hout
  subst hm
  apply hmGet_hmOfList_none
  intro p hp
  rcases (mem_from_iter out p).mp hp with ⟨fd, hfd_mem, hname, _⟩
  obtain ⟨n, hn_mem, hn⟩ := forall₂_exists_of_mem_right hfa hfd_mem
  have hfdn : fd.name = n := resolve_one_ok_name cache client n fd hn
  intro hcontra
  apply hk
  rw [← hcontra, ← hname, hfdn]
  exact hn_mem

/-! ## Claim theorems -/

/-- C1: the reconciliation of `sync_list` computes `to_add = local − remote`
and `to_remove = remote − local`; the two are disjoint, and diffing a set
against itself yields two empty sets. `to_remove_and_add` is a plain total
function on sets: it has no failure case and no effect. -/
theorem to_remove_and_add_spec :
    ∀ (saved : Finset String) (film_ids : List (String × String)),
      (to_remove_and_add saved film_ids).2 = local_ids film_ids \ saved ∧
      (to_remove_and_add saved film_ids).1 = saved \ local_ids film_ids ∧
      Disjoint (to_remove_and_add saved film_ids).2 (to_remove_and_add saved film_ids).1 ∧
      to_remove_and_add (local_ids film_ids) film_ids = (∅, ∅) := by
  intro saved film_ids
  refine ⟨rfl, rfl, disjoint_sdiff_sdiff, ?_⟩
  simp [to_remove_and_add]

/-- C2 counterexample: with 100 candidate names and an empty cache, the
resolver schedules 100 remote lookups and `join_all` has all 100 in
flight at once — far more than the claimed constant bound of 16. -/
theorem concurrency_unbounded_cex :
    16 < concurrent_in_flight (schedule_lookups
      ((List.range 100).map (fun i => "m" ++ Nat.repr i)) []) := by decide

/-- C2 amended: `resolve_film_ids` hands the whole batch to
`future::join_all`, which polls every future from the start: the number of
remote lookup calls concurrently in flight equals the number of
cache-missing candidates, so no constant bounds it — for every proposed
bound there is a candidate list exceeding it. -/
theorem join_all_runs_all_misses_concurrently :
    (∀ (movie_names : List String) (cache : List (String × String)),
      concurrent_in_flight (schedule_lookups movie_names cache) =
        (invoked_lookups movie_names cache).length) ∧
    ∀ bound : Nat, ∃ movie_names : List String,
      bound < concurrent_in_flight (schedule_lookups movie_names []) := by
  constructor
  · intro movie_names cache
    induction movie_names with
    | nil => rfl
    | cons n rest ih =>
      cases hc : hmGet cache n with
      | some id =>
        simpa [schedule_lookups, invoked_lookups, concurrent_in_flight, hc] using ih
      | none =>
        simpa [schedule_lookups, invoked_lookups, concurrent_in_flight, hc] using ih
  · intro bound
    refine ⟨List.replicate (bound + 1) "m", ?_⟩
    have : ∀ k : Nat, concurrent_in_flight (schedule_lookups (List.replicate k ("m")) []) = k := by
      intro k
      induction k with
      | zero => rfl
      | succ k ih =>
        simp [List.replicate_succ, schedule_lookups, concurrent_in_flight, hmGet_nil]
    rw [this]
    exact Nat.lt_succ_self bound

/-- A faulty list service: every response carries a (stale, unchanging)
cursor and is never missing one. -/
def faulty_list_client : ListClient := fun req =>
  .ok { items := [], next := some (req.cursor.getD 0) }

lemma fetch_loop_faulty_none :
    ∀ (fuel : Nat) (state : FetchState) (count : Nat),
      fetch_loop faulty_list_client fuel state count = none := by
  intro fuel
  induction fuel with
  | zero => intro state count; rfl
  | succ n ih =>
    intro state count
    simp only [fetch_loop, fetch_step, faulty_list_client, Except.map, continue_or_break]
    exact ih _ _

/-- C7 counterexample: against the always-cursor service the fetch loop is
still continuing after 10000 page requests — far beyond any sane
page-count bound — and no fatal error has been raised. -/
theorem no_iteration_cap_cex :
    fetch_saved_films faulty_list_client 10000 = none :=
  fetch_loop_faulty_none 10000 { request := {}, entries := ∅ } 0

/-- C7 amended: the pagination loop of `fetch_saved_films` has no iteration
cap at all: against a faulty service that returns a cursor on every
response, the loop neither terminates with a result nor fails with an
error within any number of pages — it simply never breaks. -/
theorem faulty_cursor_never_terminates :
    ∀ fuel : Nat, fetch_saved_films faulty_list_client fuel = none := by
  intro fuel
  exact fetch_loop_faulty_none fuel { request := {}, entries := ∅ } 0

/-- C10: every update request built by `sync_list` carries the hardcoded
list name "Collection", whatever the list id and delta are. -/
theorem update_request_names_collection (list_id : String)
    (to_remove to_add : List String) (request : ListUpdateRequest)
    (h : sync_update_request list_id to_remove to_add = some request) :
    request.list_name = "Collection" := by
  unfold sync_update_request at h
  split at h
  · cases h
    rfl
  · cases h

/-- C10 witness: a concrete delta (remove "D", add "A") on list id
"list-123" yields a request named "Collection". -/
theorem update_request_names_collection_witness :
    (create_update_request ("Collection") ["D"] ["A"]).list_name = "Collection" :=
  update_request_names_collection ("list-123") ["D"] ["A"]
    (create_update_request ("Collection") ["D"] ["A"]) rfl

/-- A lookup service that resolves "a" and fails with a transport error on
everything else. -/
def client_one_error : SearchClient := fun req =>
  if req.input = "a" then .ok { items := [AbstractSearchItem.filmSearchItem ("id-a")] }
  else .error { msg := "transport" }

/-- C3 counterexample: of two candidates, "a" resolves and "b" fails with
a transient transport error; `resolve_film_ids` does not drop "b" and
return the mapping for "a" — the whole resolve fails with the error. -/
theorem transport_error_aborts_batch_cex :
    resolve_film_ids ["a", "b"] [] client_one_error = .error { msg := "transport" } := rfl

/-- C3 amended: a transport error in any cache-missing candidate's lookup
makes the whole resolve operation fail (`join_all` aborts the batch);
only the "no match" response degrades to a dropped candidate. -/
theorem lookup_error_fails_resolve (movie_names : List String)
    (cache : List (String × String)) (client : SearchClient) (movie : String) (e : LbError)
    (hmem : movie ∈ movie_names) (hmiss : hmGet cache movie = none)
    (herr : search_movie client movie = .error e) :
    ∃ e', resolve_film_ids movie_names cache client = .error e' := by
  have hone : resolve_one cache client movie = .error e := by
    unfold resolve_one
    rw [hmiss, herr]
  have hmem' : Except.error e ∈ movie_names.map (resolve_one cache client) := by
    rw [← hone]
    exact List.mem_map_of_mem (resolve_one cache client) hmem
  obtain ⟨e', he'⟩ := join_all_error_of_mem e _ hmem'
  refine ⟨e', ?_⟩
  unfold resolve_film_ids
  rw [he']
  rfl

/-- C3 witness: the amended claim at the concrete counterexample input. -/
theorem lookup_error_fails_resolve_witness :
    ∃ e', resolve_film_ids ["a", "b"] [] client_one_error = .error e' :=
  lookup_error_fails_resolve ["a", "b"] [] client_one_error ("b")
    { msg := "transport" } (by simp) rfl rfl

/-- A lookup service resolving "Y" to id "2" and nothing else. -/
def client_resolves_Y : SearchClient := fun req =>
  if req.input = "Y" then .ok { items := [AbstractSearchItem.filmSearchItem ("2")] }
  else .ok { items := [] }

/-- C4 counterexample: the cache loaded at start holds ("X" → "1"); the
run's only candidate is "Y". `sync_list` persists the resolver's result
(line 347 saves `film_ids`), which is [("Y", "2")] — the loaded entry for
"X" is gone from the persisted mapping. -/
theorem loaded_entry_dropped_cex :
    resolve_film_ids ["Y"] [("X", "1")] client_resolves_Y = .ok [("Y", "2")] ∧
    hmGet [("Y", "2")] "X" = none := ⟨rfl, rfl⟩

/-- C4 amended: the mapping `sync_list` persists is exactly the current
run's resolve result: a loaded cache entry survives if (and, for names
the service does not re-resolve, only if) its name is among the run's
candidates — a hit keeps its cached id — while every loaded entry whose
name is not among the current candidates is absent from the persisted
mapping. -/
theorem persisted_cache_is_resolve_result (movie_names : List String)
    (film_ids_cache m : List (String × String)) (client : SearchClient)
    (hok : resolve_film_ids movie_names film_ids_cache client = .ok m) :
    (∀ movie id, movie ∈ movie_names → hmGet film_ids_cache movie = some id →
      hmGet m movie = some id) ∧
    (∀ movie, movie ∉ movie_names → hmGet m movie = none) := by
  constructor
  · intro movie id hmem hhit
    exact resolve_ok_preserves_hit movie_names film_ids_cache m client movie id hok hmem hhit
  · intro movie hnot
    exact resolve_ok_keys_mem movie_names film_ids_cache m client movie hok hnot

/-- C4 witness: with loaded cache [("Y","7"), ("X","1")] and single
candidate "Y", the persisted mapping keeps the hit ("Y" → "7") and drops
the unqueried loaded entry "X". -/
theorem persisted_cache_is_resolve_result_witness :
    (∀ movie id, movie ∈ (["Y"] : List String) →
      hmGet [("Y", "7"), ("X", "1")] movie = some id →
      hmGet [("Y", "7")] movie = some id) ∧
    (∀ movie, movie ∉ (["Y"] : List String) → hmGet [("Y", "7")] movie = none) :=
  persisted_cache_is_resolve_result ["Y"] [("Y", "7"), ("X", "1")] [("Y", "7")]
    client_resolves_Y rfl

/-- C5: a candidate name with a byte-identical key in the cache is never
sent to the remote search service — it is not among the invoked lookups —
and, whenever the resolve succeeds, the result maps it to its cached id. -/
theorem cache_hit_short_circuits (movie_names : List String)
    (cache : List (String × String)) (client : SearchClient) (movie id : String)
    (hmem : movie ∈ movie_names) (hhit : hmGet cache movie = some id) :
    movie ∉ invoked_lookups movie_names cache ∧
    ∀ m, resolve_film_ids movie_names cache client = .ok m → hmGet m movie = some id := by
  constructor
  · intro hcontra
    unfold invoked_lookups at hcontra
    rw [List.mem_filterMap] at hcontra
    obtain ⟨task, htask, hmatch⟩ := hcontra
    unfold schedule_lookups at htask
    rw [List.mem_map] at htask
    obtain ⟨n, _, hn⟩ := htask
    cases hc : hmGet cache n with
    | some id' =>
      rw [hc] at hn
      rw [← hn] at hmatch
      simp at hmatch
    | none =>
      rw [hc] at hn
      rw [← hn] at hmatch
      simp at hmatch
      rw [hmatch] at hc
      rw [hc] at hhit
      cases hhit
  · intro m hres
    exact resolve_ok_preserves_hit movie_names cache m client movie id hres hmem hhit

/-- A lookup service resolving "B" to id "3" and nothing else. -/
def client_resolves_B : SearchClient := fun req =>
  if req.input = "B" then .ok { items := [AbstractSearchItem.filmSearchItem ("3")] }
  else .ok { items := [] }

/-- C5 witness: with candidates ["A", "B"] and cached ("A" → "9"), "A" is
not among the invoked lookups and the result maps "A" to "9". -/
theorem cache_hit_short_circuits_witness :
    "A" ∉ invoked_lookups ["A", "B"] [("A", "9")] ∧
    ∀ m, resolve_film_ids ["A", "B"] [("A", "9")] client_resolves_B = .ok m →
      hmGet m ("A") = some ("9") :=
  cache_hit_short_circuits ["A", "B"] [("A", "9")] client_resolves_B ("A") "9"
    (by simp) rfl

lemma filterMap_pair_keys (ids : String → Option String) :
    ∀ names : List String,
      (names.filterMap (fun n => (ids n).map (fun id => (n, id)))).map Prod.fst
        = names.filter (fun n => (ids n).isSome) := by
  intro names
  induction names with
  | nil => rfl
  | cons n rest ih =>
    cases h : ids n with
    | none => simp [List.filterMap_cons, List.filter_cons, h, ih]
    | some id => simp [List.filterMap_cons, List.filter_cons, h, ih]

lemma mem_filterMap_pair (ids : String → Option String) (names : List String)
    (p : String × String) :
    p ∈ names.filterMap (fun n => (ids n).map (fun id => (n, id))) ↔
      p.1 ∈ names ∧ ids p.1 = some p.2 := by
  rw [List.mem_filterMap]
  constructor
  · rintro ⟨n, hn, hmap⟩
    rcases Option.map_eq_some'.mp hmap with ⟨id, hid, hp⟩
    subst hp
    exact ⟨hn, hid⟩
  · rintro ⟨hn, hid⟩
    exact ⟨p.1, hn, by rw [hid]; rfl⟩

/-- C8: if the lookup service answers "no match" (an empty response) for
exactly one of N distinct candidates and every other candidate resolves
to an id, `resolve_film_ids` succeeds with a mapping of exactly N−1
entries: the unmatched candidate is absent (not an error), every other
candidate is present. -/
theorem no_match_drops_candidate (movie_names : List String)
    (cache : List (String × String)) (client : SearchClient) (u : String)
    (hnd : movie_names.Nodup) (hu : u ∈ movie_names)
    (hu_miss : hmGet cache u = none)
    (hu_resp : search_movie client u = .ok { items := [] })
    (hresolves : ∀ n ∈ movie_names, n ≠ u →
      ∃ fd, resolve_one cache client n = .ok fd ∧ fd.id.isSome) :
    ∃ m, resolve_film_ids movie_names cache client = .ok m ∧
      m.length = movie_names.length - 1 ∧
      hmGet m u = none ∧
      ∀ n ∈ movie_names, n ≠ u → ∃ id, hmGet m n = some id := by
  have hone_u : resolve_one cache client u = .ok (FilmDetails.new u none) := by
    unfold resolve_one
    rw [hu_miss, hu_resp]
  have hid_u : resolved_id cache client u = none := by
    simp [resolved_id, hone_u, FilmDetails.new]
  have h_all : ∀ n ∈ movie_names, ∃ fd, resolve_one cache client n = .ok fd := by
    intro n hn
    by_cases hnu : n = u
    · exact ⟨FilmDetails.new u none, hnu ▸ hone_u⟩
    · obtain ⟨fd, hfd, _⟩ := hresolves n hn hnu
      exact ⟨fd, hfd⟩
  have hsome : ∀ n ∈ movie_names, n ≠ u → (resolved_id cache client n).isSome := by
    intro n hn hnu
    obtain ⟨fd, hfd, hfds⟩ := hresolves n hn hnu
    simpa [resolved_id, hfd] using hfds
  have hres := resolve_film_ids_of_all_ok movie_names cache client h_all
  have hkeys : (movie_names.filterMap
        (fun n => (resolved_id cache client n).map (fun id => (n, id)))).map Prod.fst
      = movie_names.filter (fun n => (resolved_id cache client n).isSome) :=
    filterMap_pair_keys (resolved_id cache client) movie_names
  have hkeys_nodup : ((movie_names.filterMap
      (fun n => (resolved_id cache client n).map (fun id => (n, id)))).map Prod.fst).Nodup := by
    rw [hkeys]
    exact hnd.filter _
  have hflat := hmOfList_of_nodup_keys
    (movie_names.filterMap (fun n => (resolved_id cache client n).map (fun id => (n, id))))
    hkeys_nodup
  refine ⟨movie_names.filterMap
      (fun n => (resolved_id cache client n).map (fun id => (n, id))),
    by rw [hres, hflat], ?_, ?_, ?_⟩
  · rw [← List.length_map _ Prod.fst, hkeys]
    have hcongr : movie_names.filter (fun n => (resolved_id cache client n).isSome)
        = movie_names.filter (fun x => x != u) := by
      apply List.filter_congr
      intro x hx
      by_cases hxu : x = u
      · subst hxu
        rw [hid_u]
        simp
      · have h1 : (x != u) = true := by simp [hxu]
        rw [h1]
        exact hsome x hx hxu
    rw [hcongr, ← hnd.erase_eq_filter u]
    have := List.length_erase_add_one hu
    omega
  · rw [← hflat]
    apply hmGet_hmOfList_none
    intro p hp
    rcases (mem_filterMap_pair (resolved_id cache client) movie_names p).mp hp with ⟨_, hpid⟩
    intro hcontra
    rw [hcontra, hid_u] at hpid
    cases hpid
  · intro n hn hnu
    have hs := hsome n hn hnu
    obtain ⟨id, hid⟩ := Option.isSome_iff_exists.mp hs
    refine ⟨id, ?_⟩
    rw [← hflat]
    apply hmGet_hmOfList_const
    · refine ⟨(n, id), ?_, rfl⟩
      rw [mem_filterMap_pair]
      exact ⟨hn, hid⟩
    · intro p hp hpk
      rcases (mem_filterMap_pair (resolved_id cache client) movie_names p).mp hp with ⟨_, hpid⟩
      rw [hpk, hid] at hpid
      cases hpid
      rfl

/-- A lookup service resolving "A" to "1" and "C" to "3" and answering "no
match" for everything else. -/
def client_drops_B : SearchClient := fun req =>
  if req.input = "A" then .ok { items := [AbstractSearchItem.filmSearchItem ("1")] }
  else if req.input = "C" then .ok { items := [AbstractSearchItem.filmSearchItem ("3")] }
  else .ok { items := [] }

/-- C8 witness: of the three candidates ["A", "B", "C"], "B" gets a "no
match" response; the resolve succeeds with exactly 2 entries, "B" absent,
"A" and "C" present. -/
theorem no_match_drops_candidate_witness :
    ∃ m, resolve_film_ids ["A", "B", "C"] [] client_drops_B = .ok m ∧
      m.length = (["A", "B", "C"] : List String).length - 1 ∧
      hmGet m ("B") = none ∧
      ∀ n ∈ (["A", "B", "C"] : List String), n ≠ "B" → ∃ id, hmGet m n = some id := by
  apply no_match_drops_candidate ["A", "B", "C"] [] client_drops_B ("B")
    (by decide) (by simp) rfl rfl
  intro n hn hne
  fin_cases hn
  · exact ⟨FilmDetails.new ("A") (some ("1")), rfl, rfl⟩
  · exact absurd rfl hne
  · exact ⟨FilmDetails.new ("C") (some ("3")), rfl, rfl⟩

/-- A well-behaved list service serving a fixed chain of pages: page `i`
answers the request whose cursor is `i` (no cursor meaning page 0) and
points at page `i+1`, the last page carrying no cursor. -/
def chain_list_client (pages : List (List ListEntry)) : ListClient := fun req =>
  let i := req.cursor.getD 0
  match pages.drop i with
  | [] => .ok { items := [], next := none }
  | page :: rest =>
    .ok { items := page, next := if rest.isEmpty then none else some (i + 1) }

/-- The union of the entry id sets of all pages. -/
def pages_union (pages : List (List ListEntry)) : Finset String :=
  pages.foldr (fun page acc => film_id_set_from_response page ∪ acc) ∅

lemma fetch_loop_chain (pages : List (List ListEntry)) :
    ∀ (fuel i count : Nat) (acc : Finset String) (req : ListEntriesRequest),
      req.cursor.getD 0 = i → pages.drop i ≠ [] → (pages.drop i).length ≤ fuel →
      fetch_loop (chain_list_client pages) fuel { request := req, entries := acc } count =
        some (.ok (acc ∪ pages_union (pages.drop i)), count + (pages.drop i).length) := by
  intro fuel
  induction fuel with
  | zero =>
    intro i count acc req hcur hne hlen
    cases hd : pages.drop i with
    | nil => exact absurd hd hne
    | cons page rest => rw [hd] at hlen; simp at hlen
  | succ n ih =>
    intro i count acc req hcur hne hlen
    cases hd : pages.drop i with
    | nil => exact absurd hd hne
    | cons page rest =>
      have hclient : chain_list_client pages req =
          .ok { items := page, next := if rest.isEmpty then none else some (i + 1) } := by
        simp only [chain_list_client, hcur, hd]
      cases rest with
      | nil =>
        simp only [fetch_loop, fetch_step, hclient, Except.map, List.isEmpty_nil, if_pos,
          continue_or_break, hd, pages_union, List.foldr]
        simp [Finset.union_comm]
      | cons r rs =>
        have hd1 : pages.drop (i + 1) = r :: rs := by
          have : List.drop 1 (List.drop i pages) = List.drop (i + 1) pages :=
            List.drop_drop 1 i pages
          rw [← this, hd]
          rfl
        have hlen' : (pages.drop (i + 1)).length ≤ n := by
          rw [hd1]
          rw [hd] at hlen
          simpa using hlen
        have hne' : pages.drop (i + 1) ≠ [] := by
          rw [hd1]
          simp
        have hstep := ih (i + 1) (count + 1) (acc ∪ film_id_set_from_response page)
          { cursor := some (i + 1), per_page := some 100 } rfl hne' hlen'
        simp only [fetch_loop, fetch_step, hclient, Except.map, continue_or_break,
          List.isEmpty_cons, if_neg, Bool.false_eq_true, not_false_iff]
        rw [hstep, hd1]
        simp only [Option.some.injEq, Prod.mk.injEq]
        constructor
        · simp [pages_union, Finset.union_assoc]
        · simp only [List.length_cons]
          omega

/-- C6: `fetch_saved_films` against a service serving the page chain
`pages` returns exactly the union of the entry id sets of all pages,
issuing exactly one request per page and stopping at the first response
that carries no cursor. -/
theorem fetch_accumulates_pages (pages : List (List ListEntry)) (fuel : Nat)
    (hne : pages ≠ []) (hfuel : pages.length ≤ fuel) :
    fetch_saved_films (chain_list_client pages) fuel =
      some (.ok (pages_union pages), pages.length) := by
  unfold fetch_saved_films
  have h := fetch_loop_chain pages fuel 0 0 ∅ {} rfl
    (by simpa using hne) (by simpa using hfuel)
  simpa using h

/-- C6 witness: for the pages [{a, b}, cursor → 1] then [{c}, no cursor],
the fetch returns {a, b, c} after exactly 2 page requests. -/
theorem fetch_accumulates_pages_witness :
    fetch_saved_films (chain_list_client [[⟨"a"⟩, ⟨"b"⟩], [⟨"c"⟩]]) 2 =
      some (.ok ({"a", "b", "c"} : Finset String), 2) := by
  have h := fetch_accumulates_pages [[⟨"a"⟩, ⟨"b"⟩], [⟨"c"⟩]] 2
    (by simp) (by simp)
  have hU : pages_union [[⟨"a"⟩, ⟨"b"⟩], [⟨"c"⟩]] = ({"a", "b", "c"} : Finset String) := by
    decide
  rw [h, hU]
  rfl

/-- C9 (code bug): `save_ids_list_to_cache` opens the cache file with
`write(true).create(true)` but WITHOUT truncating. On a fresh (empty) file
the save/load round trip works, but saving a map whose serialization is
shorter than the previous file content leaves the tail of the old JSON in
the file; `serde_json::from_reader` then rejects the trailing characters,
so the next load fails instead of returning the saved mapping. -/
theorem save_without_truncate_corrupts :
    save_ids_list_to_cache [("a", "1")] "" = serialize_ids [("a", "1")] ∧
    load_ids_list_from_cache (some (save_ids_list_to_cache [("a", "1")] "")) =
      .ok [("a", "1")] ∧
    save_ids_list_to_cache [("a", "1")] (serialize_ids [("aa", "11"), ("bb", "22")]) =
      "\x7b\"a\":\"1\"\x7d\",\"bb\":\"22\"\x7d" ∧
    load_ids_list_from_cache (some (save_ids_list_to_cache [("a", "1")]
        (serialize_ids [("aa", "11"), ("bb", "22")]))) = .error ("malformed cache") :=
  ⟨by decide, rfl, by decide, rfl⟩

end LetterboxdSync
